import Mathlib

/-!
Shallow embedding of `src/ScaleLegend.js` (d3plus-legend). The layout
algorithm of `render`, the orientation role table of `orient`, the geometry
helpers `_barPosition` and `_tickPosition`, and the `config` accessor are
translated into executable Lean definitions over exact rationals. External
collaborators (the d3-scale providers and the d3plus-text measurer) are
modelled as explicit parameters, as the specification describes them.
-/

namespace ScaleLegend

/-- JavaScript number in the layout: `none` models NaN (arising from
`Math.ceil(undefined)` when a wrapped label has no lines, or from reading
past the end of an array). All finite values are exact rationals. -/
abbrev JQ := Option ℚ

/-- JS addition: NaN absorbs. -/
def jadd : JQ → JQ → JQ
  | some a, some b => some (a + b)
  | _, _ => none

/-- JS subtraction: NaN absorbs. -/
def jsub : JQ → JQ → JQ
  | some a, some b => some (a - b)
  | _, _ => none

/-- JS multiplication: NaN absorbs (JS `0 * NaN` is NaN). -/
def jmul : JQ → JQ → JQ
  | some a, some b => some (a * b)
  | _, _ => none

/-- JS division by two (used for the half label widths). -/
def jhalf : JQ → JQ
  | some a => some (a / 2)
  | none => none

/-- JS strict greater-than: any comparison with NaN is false. -/
def jgt : JQ → JQ → Bool
  | some a, some b => decide (b < a)
  | _, _ => false

@[simp] theorem jadd_some (a b : ℚ) : jadd (some a) (some b) = some (a + b) := rfl
@[simp] theorem jsub_some (a b : ℚ) : jsub (some a) (some b) = some (a - b) := rfl
@[simp] theorem jmul_some (a b : ℚ) : jmul (some a) (some b) = some (a * b) := rfl
@[simp] theorem jhalf_some (a : ℚ) : jhalf (some a) = some (a / 2) := rfl
@[simp] theorem jadd_none_left (b : JQ) : jadd none b = none := rfl
@[simp] theorem jadd_none_right (a : JQ) : jadd a none = none := by cases a <;> rfl
@[simp] theorem jsub_none_left (b : JQ) : jsub none b = none := rfl
@[simp] theorem jsub_none_right (a : JQ) : jsub a none = none := by cases a <;> rfl
@[simp] theorem jhalf_none : jhalf none = none := rfl

/-- One comparison step of d3-array `max`: invalid entries are skipped. -/
def d3MaxStep (acc x : JQ) : JQ :=
  match acc, x with
  | none, x => x
  | some a, none => some a
  | some a, some b => some (max a b)

/-- d3-array `max` over possibly-invalid entries: invalid (NaN/undefined)
entries are ignored, and the maximum of no valid entries is undefined. -/
def d3Max (l : List JQ) : JQ :=
  l.foldl d3MaxStep none

theorem d3Max_go_some (l : List JQ) (a : ℚ) :
    l.foldl d3MaxStep (some a) = some ((l.filterMap id).foldl max a) := by
  induction l generalizing a with
  | nil => rfl
  | cons hd tl ih =>
    cases hd with
    | none => simpa [d3MaxStep] using ih a
    | some b => simpa [d3MaxStep] using ih (max a b)

theorem d3Max_eq_some (l : List JQ) (q : ℚ) (h : d3Max l = some q) :
    ∃ a t, l.filterMap id = a :: t ∧ q = t.foldl max a := by
  unfold d3Max at h
  induction l with
  | nil => simp at h
  | cons hd tl ih =>
    cases hd with
    | none =>
      simp only [List.foldl_cons, d3MaxStep] at h
      obtain ⟨a, t, h1, h2⟩ := ih h
      exact ⟨a, t, by simpa using h1, h2⟩
    | some b =>
      simp only [List.foldl_cons, d3MaxStep] at h
      rw [d3Max_go_some] at h
      exact ⟨b, tl.filterMap id, by simp, by simpa using h.symm⟩

theorem foldl_max_le_of_all {t : List ℚ} {a c : ℚ} (ha : a ≤ c)
    (h : ∀ x ∈ t, x ≤ c) : t.foldl max a ≤ c := by
  induction t generalizing a with
  | nil => simpa using ha
  | cons hd tl ih =>
    simp only [List.foldl_cons]
    exact ih (max_le ha (h hd (by simp))) (fun x hx => h x (by simp [hx]))

theorem le_foldl_max {t : List ℚ} {a : ℚ} : a ≤ t.foldl max a := by
  induction t generalizing a with
  | nil => simp
  | cons hd tl ih => exact le_trans (le_max_left a hd) ih

/-- Lower bound for `d3Max`: if every valid entry is at least `c`, so is the
maximum, whenever a maximum exists. -/
theorem d3Max_some_ge (l : List JQ) (q c : ℚ)
    (hall : ∀ x ∈ l, ∀ a, x = some a → c ≤ a)
    (h : d3Max l = some q) : c ≤ q := by
  obtain ⟨a, t, hft, hq⟩ := d3Max_eq_some l q h
  have ha : c ≤ a := by
    have : some a ∈ l := by
      have : a ∈ l.filterMap id := by rw [hft]; simp
      simpa using (List.mem_filterMap.mp this).elim (fun x hx => by
        cases x with
        | none => simp at hx
        | some v => exact hx.2 ▸ (by simpa using hx.1))
    exact hall _ this a rfl
  exact hq ▸ le_trans ha le_foldl_max

/-- Model of one d3-scale factory (part of the external ScaleProvider
collaborator): a transform for forward evaluation plus a natural tick
generator over a domain. -/
structure ScaleImpl where
  transform : ℚ → ℚ
  naturalTicks : ℚ → ℚ → List ℚ

/-- A scale instance: the transform of its kind together with the assigned
domain pair and range pair. Range entries may be NaN after narrowing. -/
structure ScaleInst where
  transform : ℚ → ℚ
  d0 : ℚ
  d1 : ℚ
  r0 : JQ
  r1 : JQ

/-- Forward evaluation of a d3 continuous scale (d3-scale 1.x): the input is
deinterpolated over the transformed domain and reinterpolated over the
range. A degenerate transformed domain deinterpolates every input to 0,
which reinterpolates to the range start. -/
def ScaleInst.apply (s : ScaleInst) (v : ℚ) : JQ :=
  let t0 := s.transform s.d0
  let t1 := s.transform s.d1
  if t1 - t0 = 0 then s.r0
  else jadd s.r0 (jmul (some ((s.transform v - t0) / (t1 - t0))) (jsub s.r1 s.r0))

/-- Evaluation on a possibly-undefined input: `scale(undefined)` is NaN. -/
def ScaleInst.applyJ (s : ScaleInst) : Option ℚ → JQ
  | some v => s.apply v
  | none => none

/-- The scale factory names exported by d3-scale. -/
def d3ScaleExports : List String :=
  ["scaleBand", "scalePoint", "scaleIdentity", "scaleLinear", "scaleLog",
   "scaleOrdinal", "scalePow", "scaleSqrt", "scaleQuantile",
   "scaleQuantize", "scaleThreshold", "scaleTime", "scaleUtc",
   "scaleSequential"]

/-- JS `name.charAt(0).toUpperCase() + name.slice(1)`. -/
def capFirst (s : String) : String :=
  match s.data with
  | [] => ""
  | c :: cs => String.mk (c.toUpper :: cs)

/-- Looking up the factory for a kind name (line 108): an unknown kind
yields no factory, so the immediate call in the source throws. The factory
table itself is the external provider. -/
def resolveScale (impls : String → ScaleImpl) (name : String) : Option ScaleImpl :=
  let key := "scale" ++ capFirst name
  if d3ScaleExports.contains key then some (impls key) else none

/-- External text measurer (d3plus-text): wraps a datum into lines given a
font, a line height, a width budget (a JS number) and a height budget, and
measures the pixel width of one line. The spec requires determinism; the
layout takes it as a parameter. -/
structure TextMeasurer where
  wrapLines : (fontFamily : String) → (fontSize lineHeight : ℚ) →
    (wrapWidth : JQ) → (wrapHeight : ℚ) → (datum : ℚ) → List String
  textWidth : (line : String) → (fontFamily : String) → (fontSize : ℚ) → ℚ

/-- The result of measureText for one tick: the wrapped lines with the
rounded-up width and height attached, read back through role names. -/
structure WrapRes where
  lines : List String
  width : JQ
  height : ℚ
deriving DecidableEq, Repr

/-- Computed member access on a measured label, as the source does with the
role string for the primary dimension. -/
def WrapRes.get (r : WrapRes) : String → JQ
  | "width" => r.width
  | "height" => some r.height
  | _ => none

/-- The role table stored by the orient accessor: abstract width, height, x
and y names mapped onto concrete attribute names. -/
structure Position where
  width : String
  height : String
  x : String
  y : String
deriving DecidableEq, Repr

def horizontalPosition : Position := ⟨"width", "height", "x", "y"⟩

def verticalPosition : Position := ⟨"height", "width", "y", "x"⟩

/-- An outer-bounds box. A freshly built box (the object literal on lines
149-153) starts with every key undefined. -/
structure Bounds where
  width : JQ
  height : JQ
  x : JQ
  y : JQ
deriving DecidableEq, Repr

def Bounds.empty : Bounds := ⟨none, none, none, none⟩

/-- Reading a bounds key by role name; an absent key is undefined. -/
def Bounds.get (b : Bounds) : String → JQ
  | "width" => b.width
  | "height" => b.height
  | "x" => b.x
  | "y" => b.y
  | _ => none

/-- Writing a bounds key by role name. The render only ever writes the four
role names produced by the orient accessor. -/
def Bounds.set (b : Bounds) : String → JQ → Bounds
  | "width", v => { b with width := v }
  | "height", v => { b with height := v }
  | "x", v => { b with x := v }
  | "y", v => { b with y := v }
  | _, _ => b

/-- Default font family of the external textBox collaborator. -/
def defaultFontFamily : String := "Verdana"

/-- The mutable fields of a ScaleLegend instance, with the constructor
defaults (lines 14-34). The UUID and the DOM selection are omitted: they
never influence geometry. -/
structure LegendState where
  align : String := "middle"
  domain : ℚ × ℚ := (0, 10)
  duration : ℚ := 600
  height : ℚ := 100
  orient : String := "bottom"
  position : Position := horizontalPosition
  outerBounds : Bounds := ⟨some 0, some 0, some 0, some 0⟩
  padding : ℚ := 5
  scaleName : String := "linear"
  strokeWidth : ℚ := 1
  fontFamily : ℚ → ℕ → String := fun _ _ => defaultFontFamily
  fontSize : ℚ → ℕ → ℚ := fun _ _ => 10
  tickSize : ℚ := 5
  width : ℚ := 400
  ticksCfg : Option (List ℚ) := none
  lineHeight : Option (ℚ → ℕ → ℚ) := none
  d3Scale : Option ScaleInst := none
  lastScale : Option ScaleInst := none

/-- The orient accessor (lines 288-300): stores the orientation and the role
table, horizontal for top and bottom, flipped otherwise. -/
def LegendState.setOrient (st : LegendState) (o : String) : LegendState :=
  let horizontal := ["top", "bottom"].contains o
  { st with
    position := if horizontal then horizontalPosition else verticalPosition
    orient := o }

/-- Reading the configured size for a role name, as the source does with the
computed access on the underscore field. -/
def LegendState.sizeFor (st : LegendState) (role : String) : ℚ :=
  if role = "width" then st.width
  else if role = "height" then st.height
  else 0

/-- The line-height accessor, defaulted on first render (line 98) to the
font size times 1.1. -/
def lhOf (st : LegendState) : ℚ → ℕ → ℚ :=
  st.lineHeight.getD (fun d i => st.fontSize d i * (11 / 10))

/-- The usable primary size before narrowing (line 106): the configured
primary dimension minus twice the padding. -/
def size0Of (st : LegendState) : ℚ :=
  st.sizeFor st.position.width - st.padding * 2

/-- The scale as first constructed (lines 108-110): the configured domain,
ranged over the unshrunk interval from padding. -/
def scale0Of (impl : ScaleImpl) (st : LegendState) : ScaleInst :=
  { transform := impl.transform
    d0 := st.domain.1
    d1 := st.domain.2
    r0 := some st.padding
    r1 := some (st.padding + size0Of st) }

/-- Tick values (line 112): an explicitly configured array (any array, even
an empty one, is truthy) or else the natural ticks of the scale. -/
def valuesOf (impl : ScaleImpl) (st : LegendState) : List ℚ :=
  match st.ticksCfg with
  | some t => t
  | none => impl.naturalTicks st.domain.1 st.domain.2

/-- The spacing loop (lines 114-118): the running maximum of adjacent scaled
gaps. The final iteration reads one slot past the end of the array, which
evaluates the scale on undefined, giving NaN; the strict comparison with NaN
is false, so that iteration never updates the maximum. -/
def spaceLoop (s : ScaleInst) (values : List ℚ) : JQ :=
  (List.range values.length).foldl
    (fun acc i =>
      let d := jsub (s.applyJ values[i + 1]?) (s.applyJ values[i]?)
      if jgt d acc then d else acc)
    (some 0)

/-- The label width budget (line 119): the maximal adjacent tick gap minus
the padding. -/
def spaceOf (impl : ScaleImpl) (st : LegendState) : JQ :=
  jsub (spaceLoop (scale0Of impl st) (valuesOf impl st)) (some st.padding)

/-- measureText (lines 121-139): wrap the datum with the external measurer
against the width budget and the height budget, then attach the ceiling of
the widest line and the ceiling of the line count times lineHeight plus one.
A wrap without lines has an undefined maximum, hence a NaN width. -/
def measureText (M : TextMeasurer) (impl : ScaleImpl) (st : LegendState)
    (d : ℚ) (i : ℕ) : WrapRes :=
  let f := st.fontFamily d i
  let lh := lhOf st d i
  let s := st.fontSize d i
  let lines := M.wrapLines f s lh (spaceOf impl st)
    (st.height - st.tickSize - st.padding) d
  { lines := lines
    width := (d3Max (lines.map (fun t => some (M.textWidth t f s)))).map
      (fun q => ((⌈q⌉ : ℤ) : ℚ))
    height := ((⌈(lines.length : ℚ) * (lh + 1)⌉ : ℤ) : ℚ) }

/-- The measured labels, one per tick value in order (line 141). -/
def textDataOf (M : TextMeasurer) (impl : ScaleImpl) (st : LegendState) :
    List WrapRes :=
  (valuesOf impl st).enum.map (fun p => measureText M impl st p.2 p.1)

/-- The two ways a render throws: calling the result of an unknown factory
lookup (the spec names this failure ConfigurationError), and reading a
member of the first measured label when the tick list is empty (a TypeError
on undefined). -/
inductive RenderErr
  | configurationError
  | typeErrorUndefined
deriving DecidableEq, Repr

/-- The layout core of render (lines 106-156): resolve the scale factory,
build the unshrunk scale, derive ticks and the spacing budget, measure the
labels, shrink the usable size by half of the first and last label sizes,
re-range the scale once, and build the outer bounds by role keys. Returns
the finalized scale and the outer bounds. -/
def renderCore (impls : String → ScaleImpl) (M : TextMeasurer)
    (st : LegendState) : Except RenderErr (ScaleInst × Bounds) :=
  let pos := st.position
  let p := st.padding
  match resolveScale impls st.scaleName with
  | none => .error .configurationError
  | some impl =>
    match textDataOf M impl st with
    | [] => .error .typeErrorUndefined
    | first :: rest =>
      let textData := first :: rest
      let firstWidth := first.get pos.width
      let lastWidth := (textData.getLast (List.cons_ne_nil first rest)).get pos.width
      let size := jsub (some (size0Of st)) (jadd (jhalf firstWidth) (jhalf lastWidth))
      let scale1 : ScaleInst :=
        { scale0Of impl st with
          r0 := jadd (some p) (jhalf firstWidth)
          r1 := jadd (jadd (some p) (jhalf firstWidth)) size }
      let ob := ((Bounds.empty.set pos.height
          (jadd (jadd (some st.tickSize)
            (d3Max (textData.map (fun t => t.get pos.height)))) (some (p * 2)))).set
          pos.width size).set pos.x scale1.r0
      let ob := ob.set pos.y
        (if st.align = "start" then some st.padding
         else if st.align = "end" then
           jsub (some (st.sizeFor pos.height)) (ob.get pos.height)
         else jsub (some (st.sizeFor pos.height / 2)) (jhalf (ob.get pos.height)))
      .ok (scale1, ob)

/-- The datums handed to the text measurer, in order: none at all when the
factory lookup throws first. -/
def measuredOf (impls : String → ScaleImpl) (st : LegendState) : List ℚ :=
  match resolveScale impls st.scaleName with
  | none => []
  | some impl => valuesOf impl st

/-- Outcome of one render call: the updated instance (or the thrown error)
together with the measurement trace. -/
structure RenderResult where
  res : Except RenderErr LegendState
  measured : List ℚ

/-- render (lines 95-237): default the line height on first call, run the
layout core and store the finalized scale, the outer bounds and the last
scale on the instance. The drawing commands to the external renderer are
out of scope; the geometry they receive is barPosition and tickPosition. -/
def render (impls : String → ScaleImpl) (M : TextMeasurer)
    (st : LegendState) : RenderResult :=
  match renderCore impls M st with
  | .error e => ⟨.error e, measuredOf impls st⟩
  | .ok (s, b) =>
    ⟨.ok { st with
        lineHeight := some (lhOf st)
        d3Scale := some s
        outerBounds := b
        lastScale := some s }
      , measuredOf impls st⟩

/-- Whether a render call returned normally. -/
def renderOk (r : RenderResult) : Bool :=
  match r.res with
  | .ok _ => true
  | .error _ => false

/-- Endpoint attributes of a drawn line: the two primary-attribute values
followed by the two secondary-attribute values. -/
structure LinePos where
  a1 : JQ
  a2 : JQ
  b1 : JQ
  b2 : JQ
deriving DecidableEq, Repr

/-- Model of _barPosition (lines 42-50): primary attributes at the scaled domain
endpoints, secondary attributes at the bar edge, which lies after the outer
box for top and left and at its start for bottom and right. Undefined
before a first render. -/
def barPosition (st : LegendState) : Option LinePos :=
  let pos := st.position
  let position :=
    if ["top", "left"].contains st.orient
    then jadd (st.outerBounds.get pos.y) (st.outerBounds.get pos.height)
    else st.outerBounds.get pos.y
  match st.d3Scale with
  | none => none
  | some s => some ⟨s.apply s.d0, s.apply s.d1, position, position⟩

/-- Model of _tickPosition (lines 77-88) for one tick datum: exiting ticks (last) use
the previous scale when present and collapse onto the bar edge; other ticks
extend from the bar edge by the tick size, negated for top and left. -/
def tickPosition (st : LegendState) (last : Bool) (d : ℚ) : Option LinePos :=
  let pos := st.position
  let position :=
    if ["top", "left"].contains st.orient
    then jadd (st.outerBounds.get pos.y) (st.outerBounds.get pos.height)
    else st.outerBounds.get pos.y
  let size := if ["top", "left"].contains st.orient then -st.tickSize else st.tickSize
  let scaleO :=
    if last then
      match st.lastScale with
      | some s => some s
      | none => st.d3Scale
    else st.d3Scale
  match scaleO with
  | none => none
  | some s =>
    some ⟨s.apply d, s.apply d, position,
      if last then position else jadd position (some size)⟩

/-- Own properties a ScaleLegend instance can carry: the fields assigned by
the constructor plus those assigned later by render and the accessors. No
code path assigns a key named prototype. -/
def instanceOwnProps : List String :=
  ["_align", "_domain", "_duration", "_height", "_orient", "_position",
   "_outerBounds", "_padding", "_scale", "_strokeWidth", "_textBoxConfig",
   "_tickSize", "_uuid", "_width", "_select", "_lineHeight", "_ticks",
   "_d3Scale", "_lastScale"]

/-- Member names found on the class prototype: the methods plus the
implicit constructor reference. -/
def prototypeMembers : List String :=
  ["constructor", "_barPosition", "_clipPosition", "_tickPosition",
   "render", "align", "config", "domain", "height", "orient",
   "outerBounds", "padding", "scale", "select", "textBoxConfig", "ticks",
   "tickSize", "width"]

/-- Property lookup on an instance walks the own properties and then the
prototype chain; a name on neither yields undefined. -/
def instanceHasProp (k : String) : Bool :=
  instanceOwnProps.contains k || prototypeMembers.contains k

/-- Outcome of the config getter branch. -/
inductive ConfigGetResult
  | ok (cfg : List (String × String))
  | typeError
deriving DecidableEq, Repr

/-- config() with no arguments (lines 258-262): the getter branch reads
this.prototype and dereferences constructor on the result. When that lookup
yields undefined the dereference throws a TypeError before the loop runs;
the enumeration branch is modelled as unreachable. -/
def configGetter : ConfigGetResult :=
  if instanceHasProp "prototype" then .ok [] else .typeError

/-- A configuration value passed through config(obj). -/
inductive ConfigVal
  | num (q : ℚ)
  | str (s : String)
  | pairQ (a b : ℚ)
  | listQ (l : List ℚ)

/-- Invoking this[k](v) for the accessor methods that set configuration
fields (a name bound to a data field rather than a method is not
callable). -/
def applyMethod (st : LegendState) : String → ConfigVal → Option LegendState
  | "align", .str v => some { st with align := v }
  | "domain", .pairQ a b => some { st with domain := (a, b) }
  | "height", .num v => some { st with height := v }
  | "orient", .str v => some (st.setOrient v)
  | "padding", .num v => some { st with padding := v }
  | "scale", .str v => some { st with scaleName := v }
  | "ticks", .listQ l => some { st with ticksCfg := some l }
  | "tickSize", .num v => some { st with tickSize := v }
  | "width", .num v => some { st with width := v }
  | _, _ => none

/-- config(obj) (lines 254-257): for each own key of the argument that is
present on the instance or its prototype, invoke this[k] with the value;
keys absent from the instance are skipped. Yields the updated instance when
every invocation succeeds. -/
def configSetter (st : LegendState) (kvs : List (String × ConfigVal)) :
    Option LegendState :=
  kvs.foldlM
    (fun s kv =>
      if instanceHasProp kv.1 then applyMethod s kv.1 kv.2
      else some s)
    st

/-- The identity transform with a two-point tick generator: a concrete
stand-in for the external linear factory, used in witnesses. -/
def linearImpl : ScaleImpl :=
  { transform := id
    naturalTicks := fun a b => if a = b then [a] else [a, b] }

/-- A provider table answering every factory name with the sample linear
factory. -/
def sampleImpls : String → ScaleImpl := fun _ => linearImpl

/-- A measurer wrapping every datum to one fixed line of a fixed width. -/
def constMeasurer (w : ℚ) : TextMeasurer :=
  { wrapLines := fun _ _ _ _ _ _ => ["x"]
    textWidth := fun _ _ _ => w }

/-- The outer bounds recorded by a successful render. -/
def outBoundsOf (r : RenderResult) : Option Bounds :=
  match r.res with
  | .ok st => some st.outerBounds
  | .error _ => none

/-- The finalized range recorded by a successful render. -/
def scaleRangeOf (r : RenderResult) : Option (JQ × JQ) :=
  match r.res with
  | .ok st => st.d3Scale.map (fun s => (s.r0, s.r1))
  | .error _ => none

/-- The updated instance of a successful render. -/
def stateOf (r : RenderResult) : Option LegendState :=
  r.res.toOption

/-- The signed span of the finalized scale across its own domain,
s(domain[1]) - s(domain[0]), after a successful render. -/
def domainSpanOf (r : RenderResult) : Option JQ :=
  match r.res with
  | .ok st => st.d3Scale.map (fun s => jsub (s.apply s.d1) (s.apply s.d0))
  | .error _ => none

theorem jadd_some_inv (x y : JQ) (q : ℚ) (h : jadd x y = some q) :
    ∃ a b, x = some a ∧ y = some b ∧ q = a + b := by
  cases x with
  | none => simp at h
  | some a =>
    cases y with
    | none => simp at h
    | some b => exact ⟨a, b, rfl, rfl, by simpa using h.symm⟩

theorem jsub_some_inv (x y : JQ) (q : ℚ) (h : jsub x y = some q) :
    ∃ a b, x = some a ∧ y = some b ∧ q = a - b := by
  cases x with
  | none => simp at h
  | some a =>
    cases y with
    | none => simp at h
    | some b => exact ⟨a, b, rfl, rfl, by simpa using h.symm⟩

theorem jhalf_some_inv (x : JQ) (q : ℚ) (h : jhalf x = some q) :
    ∃ a, x = some a ∧ q = a / 2 := by
  cases x with
  | none => simp at h
  | some a => exact ⟨a, rfl, by simpa using h.symm⟩

/-- A d3 maximum over a list with no invalid entry and at least one entry
is defined. -/
theorem d3Max_isSome (l : List JQ) (hne : l ≠ [])
    (hall : ∀ x ∈ l, x.isSome) : (d3Max l).isSome := by
  unfold d3Max
  cases l with
  | nil => exact absurd rfl hne
  | cons hd tl =>
    cases hx : hd with
    | none =>
      have := hall hd (by simp)
      rw [hx] at this
      simp at this
    | some a =>
      simp only [List.foldl_cons, d3MaxStep, d3Max_go_some]
      simp

/-- Characterization of renderCore for the horizontal role table. -/
theorem renderCore_horiz (impls : String → ScaleImpl) (M : TextMeasurer)
    (st : LegendState) (impl : ScaleImpl) (first : WrapRes) (rest : List WrapRes)
    (hpos : st.position = horizontalPosition)
    (hres : resolveScale impls st.scaleName = some impl)
    (htd : textDataOf M impl st = first :: rest) :
    renderCore impls M st =
      (let fw := first.width
      let lw := ((first :: rest).getLast (List.cons_ne_nil first rest)).width
      let size := jsub (some (size0Of st)) (jadd (jhalf fw) (jhalf lw))
      let r0 := jadd (some st.padding) (jhalf fw)
      let hgt := jadd (jadd (some st.tickSize)
        (d3Max ((first :: rest).map (fun t => some t.height)))) (some (st.padding * 2))
      .ok (⟨impl.transform, st.domain.1, st.domain.2, r0, jadd r0 size⟩,
        ⟨size, hgt, r0,
          if st.align = "start" then some st.padding
          else if st.align = "end" then jsub (some st.height) hgt
          else jsub (some (st.height / 2)) (jhalf hgt)⟩)) := by
  unfold renderCore
  simp only [hres, htd, hpos, horizontalPosition, Bounds.empty, Bounds.set, Bounds.get,
    WrapRes.get, LegendState.sizeFor, scale0Of, String.reduceEq, reduceIte]

/-- Characterization of renderCore for the vertical role table: the primary
dimension role reads the measured label heights and the secondary role the
measured widths, and the container secondary extent is the configured
width. -/
theorem renderCore_vert (impls : String → ScaleImpl) (M : TextMeasurer)
    (st : LegendState) (impl : ScaleImpl) (first : WrapRes) (rest : List WrapRes)
    (hpos : st.position = verticalPosition)
    (hres : resolveScale impls st.scaleName = some impl)
    (htd : textDataOf M impl st = first :: rest) :
    renderCore impls M st =
      (let fw : JQ := some first.height
      let lw : JQ := some ((first :: rest).getLast (List.cons_ne_nil first rest)).height
      let size := jsub (some (size0Of st)) (jadd (jhalf fw) (jhalf lw))
      let r0 := jadd (some st.padding) (jhalf fw)
      let hgt := jadd (jadd (some st.tickSize)
        (d3Max ((first :: rest).map (fun t => t.width)))) (some (st.padding * 2))
      .ok (⟨impl.transform, st.domain.1, st.domain.2, r0, jadd r0 size⟩,
        ⟨hgt, size,
          if st.align = "start" then some st.padding
          else if st.align = "end" then jsub (some st.width) hgt
          else jsub (some (st.width / 2)) (jhalf hgt),
          r0⟩)) := by
  unfold renderCore
  simp only [hres, htd, hpos, verticalPosition, Bounds.empty, Bounds.set, Bounds.get,
    WrapRes.get, LegendState.sizeFor, scale0Of, String.reduceEq, reduceIte]

/-- Every measured label is a measureText output for some datum. -/
theorem textDataOf_mem (M : TextMeasurer) (impl : ScaleImpl) (st : LegendState)
    (r : WrapRes) (hr : r ∈ textDataOf M impl st) :
    ∃ d i, r = measureText M impl st d i := by
  unfold textDataOf at hr
  obtain ⟨p, hp, he⟩ := List.mem_map.mp hr
  exact ⟨p.2, p.1, he.symm⟩

/-- A measured label width, when defined, is non-negative whenever the
external measurer reports non-negative line widths. -/
theorem measureText_width_nonneg (M : TextMeasurer) (impl : ScaleImpl)
    (st : LegendState) (d : ℚ) (i : ℕ)
    (hM : ∀ t f s, 0 ≤ M.textWidth t f s) :
    ∀ q, (measureText M impl st d i).width = some q → 0 ≤ q := by
  intro q hq
  simp only [measureText] at hq
  rw [Option.map_eq_some'] at hq
  obtain ⟨m, hm, he⟩ := hq
  have h0 : (0 : ℚ) ≤ m := by
    refine d3Max_some_ge _ m 0 ?_ hm
    intro x hx a hxa
    obtain ⟨t, ht, he2⟩ := List.mem_map.mp hx
    rw [← he2] at hxa
    obtain rfl : M.textWidth t _ _ = a := by simpa using hxa
    exact hM _ _ _
  rw [← he]
  have : (0 : ℤ) ≤ ⌈m⌉ := Int.ceil_nonneg h0
  exact_mod_cast this

/-- A measured label height is non-negative whenever the line height is at
least -1 (in particular whenever it is non-negative). -/
theorem measureText_height_nonneg (M : TextMeasurer) (impl : ScaleImpl)
    (st : LegendState) (d : ℚ) (i : ℕ)
    (hlh : 0 ≤ lhOf st d i) :
    0 ≤ (measureText M impl st d i).height := by
  simp only [measureText]
  have h1 : (0 : ℚ) ≤ (((M.wrapLines (st.fontFamily d i) (st.fontSize d i)
      (lhOf st d i) (spaceOf impl st) (st.height - st.tickSize - st.padding) d).length : ℚ)) := by
    positivity
  have h2 : (0 : ℚ) ≤ lhOf st d i + 1 := by linarith
  have h3 : (0 : ℤ) ≤ ⌈(((M.wrapLines (st.fontFamily d i) (st.fontSize d i)
      (lhOf st d i) (spaceOf impl st) (st.height - st.tickSize - st.padding) d).length : ℚ)) *
      (lhOf st d i + 1)⌉ := Int.ceil_nonneg (mul_nonneg h1 h2)
  exact_mod_cast h3

/-- A measured label width is defined whenever the external measurer always
produces at least one line. -/
theorem measureText_width_isSome (M : TextMeasurer) (impl : ScaleImpl)
    (st : LegendState) (d : ℚ) (i : ℕ)
    (hlines : ∀ f s lh w h d2, M.wrapLines f s lh w h d2 ≠ []) :
    (measureText M impl st d i).width.isSome := by
  simp only [measureText, Option.isSome_map']
  apply d3Max_isSome
  · simp [hlines]
  · intro x hx
    obtain ⟨t, ht, he⟩ := List.mem_map.mp hx
    simp [← he]

/-- textDataOf under the constant measurer: every tick wraps to the single
fixed line. -/
theorem textDataOf_constMeasurer (w : ℚ) (impl : ScaleImpl) (st : LegendState)
    (l : List ℚ) (hv : valuesOf impl st = l) :
    textDataOf (constMeasurer w) impl st =
      l.enum.map (fun p =>
        ⟨["x"], some ((⌈w⌉ : ℤ) : ℚ), ((⌈lhOf st p.2 p.1 + 1⌉ : ℤ) : ℚ)⟩) := by
  unfold textDataOf
  rw [hv]
  refine List.map_congr_left ?_
  intro p hp
  unfold measureText constMeasurer
  simp [d3Max, d3MaxStep]

/-- The finalized scale of a default-configuration render under the sample
collaborators with label width 8. -/
def renderedScale1 : ScaleInst :=
  ⟨linearImpl.transform, 0, 10, some 9, some 391⟩

/-- The instance state after rendering the default configuration under the
sample collaborators with label width 8. -/
def renderedDefault : LegendState :=
  { ({} : LegendState) with
    lineHeight := some (lhOf {})
    d3Scale := some renderedScale1
    outerBounds := ⟨some 382, some 27, some 9, some (73 / 2)⟩
    lastScale := some renderedScale1 }

theorem textDataOf_default :
    textDataOf (constMeasurer 8) linearImpl {} =
      [⟨["x"], some 8, 12⟩, ⟨["x"], some 8, 12⟩] := by
  rw [textDataOf_constMeasurer 8 linearImpl {} [0, 10] (by norm_num [valuesOf, linearImpl])]
  simp only [List.enum, List.enumFrom, List.map]
  norm_num [lhOf, WrapRes.mk.injEq]

theorem render_default_eq :
    (render sampleImpls (constMeasurer 8) {}).res = .ok renderedDefault := by
  have h := renderCore_horiz sampleImpls (constMeasurer 8) {} linearImpl
    ⟨["x"], some 8, 12⟩ [⟨["x"], some 8, 12⟩] rfl rfl textDataOf_default
  simp only [render, h]
  simp only [List.getLast, List.map, d3Max, d3MaxStep, List.foldl, jadd, jsub, jhalf,
    size0Of, LegendState.sizeFor, horizontalPosition, String.reduceEq, reduceIte]
  norm_num [renderedDefault, renderedScale1, linearImpl, LegendState.mk.injEq,
    ScaleInst.mk.injEq, Bounds.mk.injEq, lhOf]
  exact ⟨rfl, rfl⟩

/-- C9: a configuration whose scale kind name resolves to no supported
d3-scale factory makes render fail with the failure the spec names
ConfigurationError, and the measurement trace stays empty: the failure
happens before any text measurement. -/
theorem scale_unknown_fails_fast (impls : String → ScaleImpl) (M : TextMeasurer)
    (st : LegendState)
    (h : d3ScaleExports.contains ("scale" ++ capFirst st.scaleName) = false) :
    (render impls M st).res = .error RenderErr.configurationError ∧
      (render impls M st).measured = [] := by
  have hres : resolveScale impls st.scaleName = none := by
    unfold resolveScale
    simp only [h, Bool.false_eq_true, if_false]
  unfold render renderCore measuredOf
  simp [hres]

theorem scale_unknown_fails_fast_witness :
    (render sampleImpls (constMeasurer 1) { scaleName := "foo" }).res =
        .error RenderErr.configurationError ∧
      (render sampleImpls (constMeasurer 1) { scaleName := "foo" }).measured = [] :=
  scale_unknown_fails_fast sampleImpls (constMeasurer 1) { scaleName := "foo" } (by rfl)

/-- C10: the config getter branch always throws, because the prototype
lookup on an instance yields undefined and constructor is then read off
undefined; the setter branch, on keys that all name accessor methods,
applies every key and returns the updated instance. -/
theorem config_getter_always_throws :
    configGetter = ConfigGetResult.typeError ∧
      ∀ (st : LegendState) (kvs : List (String × ConfigVal)),
        (∀ kv ∈ kvs, ∀ s : LegendState, (applyMethod s kv.1 kv.2).isSome = true) →
        (configSetter st kvs).isSome = true := by
  refine ⟨rfl, ?_⟩
  intro st kvs h
  induction kvs generalizing st with
  | nil => rfl
  | cons hd tl ih =>
    unfold configSetter
    rw [List.foldlM_cons]
    by_cases hp : instanceHasProp hd.1
    · simp only [hp, if_true]
      obtain ⟨s2, hs2⟩ := Option.isSome_iff_exists.mp (h hd (by simp) st)
      rw [hs2]
      simpa [configSetter] using ih s2 (fun kv hkv => h kv (by simp [hkv]))
    · simp only [hp, if_false]
      simpa [configSetter] using ih st (fun kv hkv => h kv (by simp [hkv]))

theorem config_getter_always_throws_witness :
    configGetter = ConfigGetResult.typeError ∧
      (configSetter {}
        [("align", ConfigVal.str "start"), ("width", ConfigVal.num 300)]).isSome = true :=
  ⟨config_getter_always_throws.1,
    config_getter_always_throws.2 {} _ (by
      intro kv hkv s
      fin_cases hkv <;> rfl)⟩

/-- C1: with at least one tick, labels are measured against the unshrunk
scale (spaceOf and measureText derive from scale0Of, whose range is the
interval from padding to padding plus size0Of), and the finalized scale is
re-ranged exactly once to [p + fw/2, p + fw/2 + (W - fw/2 - lw/2)], where
W = size0Of is the configured primary size minus twice the padding and fw,
lw are the first and last measured label sizes in the primary role. Only
those two labels enter, and the shrunk span plus fw/2 + lw/2 recovers W. -/
theorem range_narrowing (impls : String → ScaleImpl) (M : TextMeasurer)
    (st st1 : LegendState) (impl : ScaleImpl) (first : WrapRes) (rest : List WrapRes)
    (a b : ℚ)
    (hres : resolveScale impls st.scaleName = some impl)
    (htd : textDataOf M impl st = first :: rest)
    (hok : (render impls M st).res = .ok st1)
    (hfw : first.get st.position.width = some a)
    (hlw : ((first :: rest).getLast (List.cons_ne_nil first rest)).get st.position.width =
      some b) :
    ∃ s, st1.d3Scale = some s ∧
      s.r0 = some (st.padding + a / 2) ∧
      s.r1 = some (st.padding + a / 2 + (size0Of st - a / 2 - b / 2)) ∧
      ∀ q0 q1, s.r0 = some q0 → s.r1 = some q1 →
        (q1 - q0) + a / 2 + b / 2 = size0Of st := by
  cases hcore : renderCore impls M st with
  | error e =>
    unfold render at hok
    rw [hcore] at hok
    simp at hok
  | ok pair =>
    obtain ⟨s, bb⟩ := pair
    unfold render at hok
    rw [hcore] at hok
    simp only [Except.ok.injEq] at hok
    unfold renderCore at hcore
    simp only [hres, htd] at hcore
    simp only [Except.ok.injEq, Prod.mk.injEq] at hcore
    obtain ⟨hsx, hbx⟩ := hcore
    refine ⟨s, ?_, ?_, ?_, ?_⟩
    · rw [← hok]
    · rw [← hsx, hfw, hlw]
      simp
    · rw [← hsx, hfw, hlw]
      simp only [jhalf_some, jadd_some, jsub_some]
      congr 1
      ring
    · intro q0 q1 h0 h1
      rw [← hsx, hfw, hlw] at h0 h1
      simp only [jhalf_some, jadd_some, jsub_some, Option.some.injEq] at h0 h1
      rw [← h0, ← h1]
      ring

theorem range_narrowing_witness :
    scaleRangeOf (render sampleImpls (constMeasurer 8) {}) = some (some 9, some 391) := by
  obtain ⟨s, hs, h0, h1, hsum⟩ := range_narrowing sampleImpls (constMeasurer 8) {}
    renderedDefault linearImpl ⟨["x"], some 8, 12⟩ [⟨["x"], some 8, 12⟩] 8 8 rfl
    textDataOf_default render_default_eq rfl rfl
  simp only [scaleRangeOf, render_default_eq, hs, Option.map_some']
  rw [h0, h1]
  norm_num [size0Of, LegendState.sizeFor, horizontalPosition, String.reduceEq, reduceIte]

/-- A descending-domain configuration with explicit matching ticks. -/
def descSt : LegendState := { domain := (10, 0), ticksCfg := some [10, 0] }

theorem textDataOf_desc :
    textDataOf (constMeasurer 0) linearImpl descSt =
      [⟨["x"], some 0, 12⟩, ⟨["x"], some 0, 12⟩] := by
  rw [textDataOf_constMeasurer 0 linearImpl descSt [10, 0] rfl]
  simp only [List.enum, List.enumFrom, List.map]
  norm_num [lhOf, descSt, WrapRes.mk.injEq]

/-- Evaluating either endpoint of a scale whose transformed domain is not
degenerate recovers the range span exactly. -/
theorem apply_span (s : ScaleInst)
    (hne : s.transform s.d1 - s.transform s.d0 ≠ 0) :
    jsub (s.apply s.d1) (s.apply s.d0) = jsub s.r1 s.r0 := by
  unfold ScaleInst.apply
  simp only [if_neg hne]
  cases hr0 : s.r0 with
  | none => simp [jadd, jsub, jmul]
  | some a =>
    cases hr1 : s.r1 with
    | none => simp [jadd, jsub, jmul]
    | some b =>
      simp only [jsub_some, jmul_some, jadd_some, Option.some.injEq]
      rw [div_self hne, sub_self, zero_div]
      ring

/-- Subtracting the narrowed range start from the narrowed range end gives
back the narrowed size, also in the NaN cases. -/
theorem jsub_jadd_self (p c : ℚ) (fw lw : JQ) :
    jsub (jadd (jadd (some p) (jhalf fw)) (jsub (some c) (jadd (jhalf fw) (jhalf lw))))
        (jadd (some p) (jhalf fw)) =
      jsub (some c) (jadd (jhalf fw) (jhalf lw)) := by
  cases fw with
  | none => simp
  | some a =>
    cases lw with
    | none => simp
    | some b =>
      simp only [jhalf_some, jadd_some, jsub_some, Option.some.injEq]
      ring

/-- The finalized scale for the descending-domain configuration. -/
def descScale1 : ScaleInst := ⟨linearImpl.transform, 10, 0, some 5, some 395⟩

/-- The instance state after rendering the descending-domain
configuration under the sample collaborators with label width 0. -/
def renderedDesc : LegendState :=
  { descSt with
    lineHeight := some (lhOf descSt)
    d3Scale := some descScale1
    outerBounds := ⟨some 390, some 27, some 5, some (73 / 2)⟩
    lastScale := some descScale1 }

theorem render_desc_eq :
    (render sampleImpls (constMeasurer 0) descSt).res = .ok renderedDesc := by
  have h := renderCore_horiz sampleImpls (constMeasurer 0) descSt linearImpl
    ⟨["x"], some 0, 12⟩ [⟨["x"], some 0, 12⟩] rfl rfl textDataOf_desc
  simp only [render, h]
  simp only [List.getLast, List.map, d3Max, d3MaxStep, List.foldl, jadd, jsub, jhalf,
    size0Of, LegendState.sizeFor, horizontalPosition, String.reduceEq, reduceIte]
  norm_num [renderedDesc, descScale1, descSt, linearImpl, LegendState.mk.injEq,
    ScaleInst.mk.injEq, Bounds.mk.injEq, lhOf, horizontalPosition, size0Of,
    LegendState.sizeFor, String.reduceEq, reduceIte]
  rfl

theorem domainSpanOf_ok (r : RenderResult) (st : LegendState) (h : r.res = .ok st) :
    domainSpanOf r = st.d3Scale.map (fun s => jsub (s.apply s.d1) (s.apply s.d0)) := by
  unfold domainSpanOf
  rw [h]

theorem outBoundsOf_ok (r : RenderResult) (st : LegendState) (h : r.res = .ok st) :
    outBoundsOf r = some st.outerBounds := by
  unfold outBoundsOf
  rw [h]

/-- C2 counterexample: for the valid descending domain [10, 0] with the
linear kind, the finalized scale has positive span s(domain[1]) -
s(domain[0]) = 390 while domain[1] - domain[0] = -10 is negative, so the
claimed sign equality fails on the code. -/
theorem monotonicity_counterexample :
    domainSpanOf (render sampleImpls (constMeasurer 0) descSt) = some (some 390) ∧
      descSt.domain.2 - descSt.domain.1 = -10 := by
  constructor
  · rw [domainSpanOf_ok _ renderedDesc render_desc_eq]
    simp only [renderedDesc, descScale1, descSt]
    simp only [Option.map_some']
    norm_num [ScaleInst.apply, jadd, jsub, jmul, linearImpl]
  · norm_num [descSt]

/-- C2 amended: the signed span of the finalized scale across its own
domain always equals the narrowed primary size recorded in the outer
bounds - the range span - independent of the direction of the domain. The
original sign claim holds only when that narrowed span is positive and the
domain ascending; descending domains refute it (see the counterexample). -/
theorem span_eq_narrowed_size (impls : String → ScaleImpl) (M : TextMeasurer)
    (st st1 : LegendState) (s : ScaleInst)
    (hpos : st.position = horizontalPosition ∨ st.position = verticalPosition)
    (hok : (render impls M st).res = .ok st1)
    (hs : st1.d3Scale = some s)
    (hne : s.transform s.d1 - s.transform s.d0 ≠ 0) :
    jsub (s.apply s.d1) (s.apply s.d0) = st1.outerBounds.get st1.position.width := by
  cases hcore : renderCore impls M st with
  | error e =>
    unfold render at hok
    rw [hcore] at hok
    simp at hok
  | ok pair =>
    obtain ⟨s0, bb⟩ := pair
    unfold render at hok
    rw [hcore] at hok
    simp only [Except.ok.injEq] at hok
    cases hres : resolveScale impls st.scaleName with
    | none =>
      unfold renderCore at hcore
      rw [hres] at hcore
      simp at hcore
    | some impl =>
      cases htd : textDataOf M impl st with
      | nil =>
        unfold renderCore at hcore
        rw [hres] at hcore
        simp only [htd] at hcore
        simp at hcore
      | cons first rest =>
        have hs0 : st1.d3Scale = some s0 := by rw [← hok]
        have heq : s = s0 := by
          rw [hs0] at hs
          exact (Option.some.inj hs).symm
        subst heq
        have hb : st1.outerBounds = bb := by rw [← hok]
        have hp : st1.position = st.position := by rw [← hok]
        rw [apply_span s hne, hb, hp]
        cases hpos with
        | inl hh =>
          rw [renderCore_horiz impls M st impl first rest hh hres htd] at hcore
          simp only [Except.ok.injEq, Prod.mk.injEq] at hcore
          obtain ⟨hseq, hbeq⟩ := hcore
          rw [← hseq, ← hbeq, hh]
          simp only [Bounds.get, horizontalPosition]
          exact jsub_jadd_self st.padding (size0Of st) first.width
            (((first :: rest).getLast (List.cons_ne_nil first rest)).width)
        | inr hh =>
          rw [renderCore_vert impls M st impl first rest hh hres htd] at hcore
          simp only [Except.ok.injEq, Prod.mk.injEq] at hcore
          obtain ⟨hseq, hbeq⟩ := hcore
          rw [← hseq, ← hbeq, hh]
          simp only [Bounds.get, verticalPosition]
          exact jsub_jadd_self st.padding (size0Of st) (some first.height)
            (some (((first :: rest).getLast (List.cons_ne_nil first rest)).height))

theorem span_eq_narrowed_size_witness :
    jsub (renderedScale1.apply renderedScale1.d1) (renderedScale1.apply renderedScale1.d0) =
      renderedDefault.outerBounds.get renderedDefault.position.width :=
  span_eq_narrowed_size sampleImpls (constMeasurer 8) {} renderedDefault renderedScale1
    (Or.inl rfl) render_default_eq rfl (by norm_num [renderedScale1, linearImpl])

/-- A configuration with a single explicit tick. -/
def singleTickSt : LegendState := { ticksCfg := some [7] }

/-- A measurer that reacts to the width budget: a negative budget wraps to
two lines, any other budget to one. It witnesses that the budget reaches
the wrapper as a live constraint. -/
def budgetMeasurer : TextMeasurer :=
  { wrapLines := fun _ _ _ w _ _ => if jgt (some 0) w then ["a", "b"] else ["ab"]
    textWidth := fun _ _ _ => 3 }

theorem spaceOf_singleTick : spaceOf linearImpl singleTickSt = some (-5) := by
  simp only [spaceOf, spaceLoop, valuesOf, singleTickSt, scale0Of]
  simp only [List.length_cons, List.length_nil, List.range_succ, List.range_zero,
    List.nil_append, List.foldl_cons, List.foldl_nil, List.getElem?_cons_succ,
    List.getElem?_cons_zero, List.getElem?_nil]
  simp only [ScaleInst.applyJ, jsub, jgt]
  norm_num

/-- C4 counterexample: with one explicit tick and the default padding the
wrap call receives width budget -5 - a finite, negative constraint rather
than an unbounded one - and a measurer that inspects the budget wraps the
label into two lines, which an unconstrained wrap would not produce. -/
theorem spacing_budget_counterexample :
    spaceOf linearImpl singleTickSt = some (-5) ∧
      (textDataOf budgetMeasurer linearImpl singleTickSt).map (fun r => r.lines) =
        [["a", "b"]] := by
  refine ⟨spaceOf_singleTick, ?_⟩
  have hcfg : singleTickSt.ticksCfg = some [7] := rfl
  simp only [textDataOf, valuesOf, hcfg, List.enum, List.enumFrom, List.map,
    measureText, budgetMeasurer, spaceOf_singleTick, jgt]
  norm_num

/-- C4 amended: with fewer than two ticks the spacing loop reads one slot
past the array, the comparison with the resulting NaN is false, and the
budget resolves to 0 - padding, which is handed to the wrapper as its width
constraint (typically negative - not unbounded) next to the secondary
height budget; with exactly one tick the render completes without error. -/
theorem spacing_budget_few_ticks (impls : String → ScaleImpl) (M : TextMeasurer)
    (st : LegendState) (impl : ScaleImpl)
    (hres : resolveScale impls st.scaleName = some impl)
    (hlen : (valuesOf impl st).length ≤ 1) :
    spaceOf impl st = some (0 - st.padding) ∧
      ((valuesOf impl st).length = 1 → renderOk (render impls M st) = true) := by
  cases hv : valuesOf impl st with
  | nil =>
    constructor
    · simp [spaceOf, spaceLoop, hv]
    · intro hl
      simp [hv] at hl
  | cons v tl =>
    rw [hv] at hlen
    have htl0 : tl.length = 0 := by
      simp only [List.length_cons] at hlen
      omega
    have htl : tl = [] := List.eq_nil_of_length_eq_zero htl0
    subst htl
    constructor
    · simp only [spaceOf, spaceLoop, hv]
      simp only [List.length_cons, List.length_nil, List.range_succ, List.range_zero,
        List.nil_append, List.foldl_cons, List.foldl_nil, List.getElem?_cons_succ,
        List.getElem?_cons_zero, List.getElem?_nil]
      simp [ScaleInst.applyJ, jsub, jgt]
    · intro _
      have htd : textDataOf M impl st = [measureText M impl st v 0] := by
        simp [textDataOf, hv, List.enum, List.enumFrom]
      unfold render renderCore
      simp only [hres, htd]
      simp [renderOk]

theorem spacing_budget_few_ticks_witness :
    spaceOf linearImpl singleTickSt = some (0 - 5) ∧
      renderOk (render sampleImpls (constMeasurer 1) singleTickSt) = true := by
  have h := spacing_budget_few_ticks sampleImpls (constMeasurer 1) singleTickSt linearImpl
    rfl (by decide)
  refine ⟨?_, h.2 rfl⟩
  have h1 := h.1
  simpa [singleTickSt] using h1

/-- C8: layout is idempotent: a second render from the state a first render
produced recomputes everything from the unchanged configuration - none of
the fields the first render wrote (scale, bounds, last scale, defaulted
line height) feed back into the core - so the second pass lands on the same
finalized scale, hence the same narrowed range, and the same outer
bounds. -/
theorem render_idempotent (impls : String → ScaleImpl) (M : TextMeasurer)
    (st st1 : LegendState)
    (hok : (render impls M st).res = .ok st1) :
    ∃ st2, (render impls M st1).res = .ok st2 ∧
      st2.d3Scale = st1.d3Scale ∧ st2.outerBounds = st1.outerBounds := by
  cases hcore : renderCore impls M st with
  | error e =>
    unfold render at hok
    rw [hcore] at hok
    simp at hok
  | ok pair =>
    obtain ⟨s, bb⟩ := pair
    unfold render at hok
    rw [hcore] at hok
    simp only [Except.ok.injEq] at hok
    subst hok
    have hcore2 : renderCore impls M
        { st with
          lineHeight := some (lhOf st)
          d3Scale := some s
          outerBounds := bb
          lastScale := some s } = renderCore impls M st := rfl
    unfold render
    rw [hcore2, hcore]
    exact ⟨_, rfl, rfl, rfl⟩

theorem render_idempotent_witness :
    renderOk (render sampleImpls (constMeasurer 8) renderedDefault) = true := by
  obtain ⟨st2, h2, _, _⟩ := render_idempotent sampleImpls (constMeasurer 8) {}
    renderedDefault render_default_eq
  simp [renderOk, h2]

theorem render_measured (impls : String → ScaleImpl) (M : TextMeasurer)
    (st : LegendState) : (render impls M st).measured = measuredOf impls st := by
  unfold render
  cases renderCore impls M st <;> rfl

/-- The stored orientation string never enters the core layout. -/
theorem renderCore_orient_irrel (impls : String → ScaleImpl) (M : TextMeasurer)
    (st : LegendState) (o : String) :
    renderCore impls M { st with orient := o } = renderCore impls M st := rfl

theorem measuredOf_orient_irrel (impls : String → ScaleImpl)
    (st : LegendState) (o : String) :
    measuredOf impls { st with orient := o } = measuredOf impls st := rfl

/-- Shared core of the orientation-symmetry claim, stated for any pair of
orientation names of which the first is tick-flipping (top or left), the
second is not, and both map to the same role table. -/
theorem orientation_symmetry_aux (impls : String → ScaleImpl) (M : TextMeasurer)
    (st : LegendState) (o1 o2 : String)
    (hc1 : (["top", "left"].contains o1) = true)
    (hc2 : (["top", "left"].contains o2) = false)
    (hcp : (["top", "bottom"].contains o1) = (["top", "bottom"].contains o2)) :
    (render impls M (st.setOrient o1)).measured =
        (render impls M (st.setOrient o2)).measured ∧
      renderOk (render impls M (st.setOrient o1)) =
        renderOk (render impls M (st.setOrient o2)) ∧
      ∀ s1 s2, (render impls M (st.setOrient o1)).res = .ok s1 →
        (render impls M (st.setOrient o2)).res = .ok s2 →
        s1.d3Scale = s2.d3Scale ∧ s1.outerBounds = s2.outerBounds ∧
        (barPosition s1).map (fun p => p.b1) =
          some (jadd (s1.outerBounds.get s1.position.y)
            (s1.outerBounds.get s1.position.height)) ∧
        (barPosition s2).map (fun p => p.b1) =
          some (s2.outerBounds.get s2.position.y) ∧
        (∀ d, (tickPosition s1 false d).map (fun p => p.b2) =
          (barPosition s1).map (fun p => jadd p.b1 (some (-s1.tickSize)))) ∧
        (∀ d, (tickPosition s2 false d).map (fun p => p.b2) =
          (barPosition s2).map (fun p => jadd p.b1 (some s2.tickSize))) ∧
        (∀ d, (tickPosition s1 false d).map (fun p => p.a1) =
          (tickPosition s2 false d).map (fun p => p.a1)) := by
  have hso : st.setOrient o1 = { st.setOrient o2 with orient := o1 } := by
    unfold LegendState.setOrient
    rw [hcp]
  have hr : renderCore impls M (st.setOrient o1) =
      renderCore impls M (st.setOrient o2) := by
    rw [hso]
    exact renderCore_orient_irrel impls M (st.setOrient o2) o1
  have hm : measuredOf impls (st.setOrient o1) = measuredOf impls (st.setOrient o2) := by
    rw [hso]
    exact measuredOf_orient_irrel impls (st.setOrient o2) o1
  refine ⟨?_, ?_, ?_⟩
  · rw [render_measured, render_measured, hm]
  · unfold renderOk render
    rw [hr]
    cases renderCore impls M (st.setOrient o2) <;> rfl
  · intro s1 s2 hok1 hok2
    cases hcore : renderCore impls M (st.setOrient o2) with
    | error e =>
      unfold render at hok1
      rw [hr, hcore] at hok1
      simp at hok1
    | ok pair =>
      obtain ⟨s, bb⟩ := pair
      unfold render at hok1 hok2
      rw [hr, hcore] at hok1
      rw [hcore] at hok2
      simp only [Except.ok.injEq] at hok1 hok2
      subst hok1
      subst hok2
      simp only [barPosition, tickPosition, LegendState.setOrient, hc1, hc2,
        Bool.true_eq_false, if_true, if_false, Option.map_some']
      refine ⟨?_, ?_, ?_, ?_, ?_, ?_, ?_⟩ <;>
        first
          | trivial
          | exact fun d => rfl

/-- C7: swapping top for bottom (or left for right) with identical inputs
leaves every layout magnitude unchanged - same measurement trace, same
success, same finalized scale, same outer bounds - while the bar edge sits
past the outer box (position plus secondary size) for the top/left member
of the pair and at the box position for the bottom/right member, and the
tick offset carries a flipped sign. -/
theorem orientation_symmetry (o1 o2 : String)
    (hpair : (o1 = "top" ∧ o2 = "bottom") ∨ (o1 = "left" ∧ o2 = "right"))
    (impls : String → ScaleImpl) (M : TextMeasurer) (st : LegendState) :
    (render impls M (st.setOrient o1)).measured =
        (render impls M (st.setOrient o2)).measured ∧
      renderOk (render impls M (st.setOrient o1)) =
        renderOk (render impls M (st.setOrient o2)) ∧
      ∀ s1 s2, (render impls M (st.setOrient o1)).res = .ok s1 →
        (render impls M (st.setOrient o2)).res = .ok s2 →
        s1.d3Scale = s2.d3Scale ∧ s1.outerBounds = s2.outerBounds ∧
        (barPosition s1).map (fun p => p.b1) =
          some (jadd (s1.outerBounds.get s1.position.y)
            (s1.outerBounds.get s1.position.height)) ∧
        (barPosition s2).map (fun p => p.b1) =
          some (s2.outerBounds.get s2.position.y) ∧
        (∀ d, (tickPosition s1 false d).map (fun p => p.b2) =
          (barPosition s1).map (fun p => jadd p.b1 (some (-s1.tickSize)))) ∧
        (∀ d, (tickPosition s2 false d).map (fun p => p.b2) =
          (barPosition s2).map (fun p => jadd p.b1 (some s2.tickSize))) ∧
        (∀ d, (tickPosition s1 false d).map (fun p => p.a1) =
          (tickPosition s2 false d).map (fun p => p.a1)) := by
  rcases hpair with ⟨rfl, rfl⟩ | ⟨rfl, rfl⟩
  · exact orientation_symmetry_aux impls M st "top" "bottom" rfl rfl rfl
  · exact orientation_symmetry_aux impls M st "left" "right" rfl rfl rfl

theorem orientation_symmetry_witness :
    (render sampleImpls (constMeasurer 8) (LegendState.setOrient {} "top")).measured =
        (render sampleImpls (constMeasurer 8) (LegendState.setOrient {} "bottom")).measured ∧
      renderOk (render sampleImpls (constMeasurer 8) (LegendState.setOrient {} "top")) =
        renderOk (render sampleImpls (constMeasurer 8) (LegendState.setOrient {} "bottom")) :=
  ⟨(orientation_symmetry "top" "bottom" (Or.inl ⟨rfl, rfl⟩) sampleImpls
      (constMeasurer 8) {}).1,
    (orientation_symmetry "top" "bottom" (Or.inl ⟨rfl, rfl⟩) sampleImpls
      (constMeasurer 8) {}).2.1⟩

/-- Shared core of the alignment claim: the three-way rule holds for any
state with one of the two role tables. -/
theorem alignment_rule_aux (impls : String → ScaleImpl) (M : TextMeasurer)
    (st st1 : LegendState)
    (hpos : st.position = horizontalPosition ∨ st.position = verticalPosition)
    (hok : (render impls M st).res = .ok st1) :
    ∀ b, st1.outerBounds.get st1.position.height = some b →
      (st1.align = "start" →
        st1.outerBounds.get st1.position.y = some st1.padding) ∧
      (st1.align = "end" →
        st1.outerBounds.get st1.position.y =
          some (st1.sizeFor st1.position.height - b)) ∧
      (st1.align ≠ "start" → st1.align ≠ "end" →
        st1.outerBounds.get st1.position.y =
          some ((st1.sizeFor st1.position.height - b) / 2)) := by
  cases hcore : renderCore impls M st with
  | error e =>
    unfold render at hok
    rw [hcore] at hok
    simp at hok
  | ok pair =>
    obtain ⟨s, bb⟩ := pair
    unfold render at hok
    rw [hcore] at hok
    simp only [Except.ok.injEq] at hok
    subst hok
    cases hres : resolveScale impls st.scaleName with
    | none =>
      unfold renderCore at hcore
      rw [hres] at hcore
      simp at hcore
    | some impl =>
      cases htd : textDataOf M impl st with
      | nil =>
        unfold renderCore at hcore
        rw [hres] at hcore
        simp only [htd] at hcore
        simp at hcore
      | cons first rest =>
        cases hpos with
        | inl hh =>
          rw [renderCore_horiz impls M st impl first rest hh hres htd] at hcore
          simp only [Except.ok.injEq, Prod.mk.injEq] at hcore
          obtain ⟨hseq, hbeq⟩ := hcore
          intro b hb
          simp only [hh, horizontalPosition] at hb ⊢
          rw [← hbeq] at hb
          simp only [Bounds.get] at hb
          refine ⟨?_, ?_, ?_⟩
          · intro ha
            rw [← hbeq]
            simp only [Bounds.get, if_pos ha]
          · intro ha
            rw [← hbeq]
            have hne : ¬ st.align = "start" := by
              rw [ha]
              decide
            simp only [Bounds.get, if_neg hne, if_pos ha, hb]
            simp [LegendState.sizeFor]
          · intro ha1 ha2
            rw [← hbeq]
            simp only [Bounds.get, if_neg ha1, if_neg ha2, hb]
            simp only [jhalf_some, jsub_some, LegendState.sizeFor, Option.some.injEq,
              String.reduceEq, reduceIte]
            ring
        | inr hh =>
          rw [renderCore_vert impls M st impl first rest hh hres htd] at hcore
          simp only [Except.ok.injEq, Prod.mk.injEq] at hcore
          obtain ⟨hseq, hbeq⟩ := hcore
          intro b hb
          simp only [hh, verticalPosition] at hb ⊢
          rw [← hbeq] at hb
          simp only [Bounds.get] at hb
          refine ⟨?_, ?_, ?_⟩
          · intro ha
            rw [← hbeq]
            simp only [Bounds.get, if_pos ha]
          · intro ha
            rw [← hbeq]
            have hne : ¬ st.align = "start" := by
              rw [ha]
              decide
            simp only [Bounds.get, if_neg hne, if_pos ha, hb]
            simp [LegendState.sizeFor]
          · intro ha1 ha2
            rw [← hbeq]
            simp only [Bounds.get, if_neg ha1, if_neg ha2, hb]
            simp only [jhalf_some, jsub_some, LegendState.sizeFor, Option.some.injEq,
              String.reduceEq, reduceIte]
            ring

/-- C6: for every orientation, the orthogonal-axis position of the outer
bounds follows the three-way alignment rule: padding for start, container
secondary extent minus the secondary size for end, and half that
difference for any other value - in particular for the default middle
alignment, which lands in the centering branch. -/
theorem alignment_rule (o : String)
    (ho : o = "top" ∨ o = "bottom" ∨ o = "left" ∨ o = "right")
    (impls : String → ScaleImpl) (M : TextMeasurer) (st st1 : LegendState)
    (hok : (render impls M (st.setOrient o)).res = .ok st1) :
    ∀ b, st1.outerBounds.get st1.position.height = some b →
      (st1.align = "start" →
        st1.outerBounds.get st1.position.y = some st1.padding) ∧
      (st1.align = "end" →
        st1.outerBounds.get st1.position.y =
          some (st1.sizeFor st1.position.height - b)) ∧
      (st1.align ≠ "start" → st1.align ≠ "end" →
        st1.outerBounds.get st1.position.y =
          some ((st1.sizeFor st1.position.height - b) / 2)) := by
  rcases ho with rfl | rfl | rfl | rfl
  · exact alignment_rule_aux impls M _ st1 (Or.inl rfl) hok
  · exact alignment_rule_aux impls M _ st1 (Or.inl rfl) hok
  · exact alignment_rule_aux impls M _ st1 (Or.inr rfl) hok
  · exact alignment_rule_aux impls M _ st1 (Or.inr rfl) hok

theorem alignment_rule_witness :
    renderedDefault.outerBounds.get renderedDefault.position.y =
      some ((renderedDefault.sizeFor renderedDefault.position.height - 27) / 2) :=
  ((alignment_rule "bottom" (Or.inr (Or.inl rfl)) sampleImpls (constMeasurer 8) {}
      renderedDefault render_default_eq) 27 rfl).2.2
    (by decide) (by decide)

/-- Every width recorded in the measured labels is non-negative when the
measurer reports non-negative line widths. -/
theorem textDataOf_width_nonneg (M : TextMeasurer) (impl : ScaleImpl)
    (st : LegendState) (hM : ∀ t f s, 0 ≤ M.textWidth t f s)
    (r : WrapRes) (hr : r ∈ textDataOf M impl st) :
    ∀ q, r.width = some q → 0 ≤ q := by
  obtain ⟨d, i, rfl⟩ := textDataOf_mem M impl st r hr
  exact measureText_width_nonneg M impl st d i hM

/-- Every height recorded in the measured labels is non-negative when the
line heights are. -/
theorem textDataOf_height_nonneg (M : TextMeasurer) (impl : ScaleImpl)
    (st : LegendState) (hlh : ∀ d i, 0 ≤ lhOf st d i)
    (r : WrapRes) (hr : r ∈ textDataOf M impl st) :
    0 ≤ r.height := by
  obtain ⟨d, i, rfl⟩ := textDataOf_mem M impl st r hr
  exact measureText_height_nonneg M impl st d i (hlh d i)

/-- A configuration whose primary extent leaves no room after padding. -/
def tightSt : LegendState := { width := 10, ticksCfg := some [0, 10] }

theorem textDataOf_tight :
    textDataOf (constMeasurer 4) linearImpl tightSt =
      [⟨["x"], some 4, 12⟩, ⟨["x"], some 4, 12⟩] := by
  rw [textDataOf_constMeasurer 4 linearImpl tightSt [0, 10] rfl]
  simp only [List.enum, List.enumFrom, List.map]
  norm_num [lhOf, tightSt, WrapRes.mk.injEq]

/-- The finalized scale for the tight configuration: the narrowed range
runs backwards. -/
def tightScale1 : ScaleInst := ⟨linearImpl.transform, 0, 10, some 7, some 3⟩

/-- The instance state after rendering the tight configuration under the
sample collaborators with label width 4. -/
def tightRendered : LegendState :=
  { tightSt with
    lineHeight := some (lhOf tightSt)
    d3Scale := some tightScale1
    outerBounds := ⟨some (-4), some 27, some 7, some (73 / 2)⟩
    lastScale := some tightScale1 }

theorem render_tight_eq :
    (render sampleImpls (constMeasurer 4) tightSt).res = .ok tightRendered := by
  have h := renderCore_horiz sampleImpls (constMeasurer 4) tightSt linearImpl
    ⟨["x"], some 4, 12⟩ [⟨["x"], some 4, 12⟩] rfl rfl textDataOf_tight
  simp only [render, h]
  simp only [List.getLast, List.map, d3Max, d3MaxStep, List.foldl, jadd, jsub, jhalf,
    size0Of, LegendState.sizeFor, horizontalPosition, String.reduceEq, reduceIte]
  norm_num [tightRendered, tightScale1, tightSt, linearImpl, LegendState.mk.injEq,
    ScaleInst.mk.injEq, Bounds.mk.injEq, lhOf, horizontalPosition, size0Of,
    LegendState.sizeFor, String.reduceEq, reduceIte]
  rfl

/-- C3 counterexample: with primary size 10 and padding 5 the available
size is zero, and edge labels of width 4 drive the outer bounds primary
size to -4, a negative value, refuting the claimed non-negativity. -/
theorem bounds_nonneg_counterexample :
    (outBoundsOf (render sampleImpls (constMeasurer 4) tightSt)).map
        (fun bb => bb.get "width") = some (some (-4)) ∧ ((-4 : ℚ) < 0) := by
  refine ⟨?_, by norm_num⟩
  rw [outBoundsOf_ok _ tightRendered render_tight_eq]
  simp [tightRendered, Bounds.get]

/-- C3 amended: for non-negative padding, tick size, measured line widths
and line heights, the outer bounds primary size never exceeds the
configured container primary dimension and the secondary size is
non-negative; the primary size itself can go negative when the edge label
half-widths exceed the available size (see the counterexample), which is
the only correction. -/
theorem outer_bounds_amended (impls : String → ScaleImpl) (M : TextMeasurer)
    (st st1 : LegendState)
    (hpos : st.position = horizontalPosition ∨ st.position = verticalPosition)
    (hp : 0 ≤ st.padding) (ht : 0 ≤ st.tickSize)
    (hM : ∀ t f s, 0 ≤ M.textWidth t f s)
    (hlh : ∀ d i, 0 ≤ lhOf st d i)
    (hok : (render impls M st).res = .ok st1) :
    (∀ q, st1.outerBounds.get st1.position.width = some q →
      q ≤ st1.sizeFor st1.position.width) ∧
    (∀ q, st1.outerBounds.get st1.position.height = some q → 0 ≤ q) := by
  cases hcore : renderCore impls M st with
  | error e =>
    unfold render at hok
    rw [hcore] at hok
    simp at hok
  | ok pair =>
    obtain ⟨s, bb⟩ := pair
    unfold render at hok
    rw [hcore] at hok
    simp only [Except.ok.injEq] at hok
    subst hok
    cases hres : resolveScale impls st.scaleName with
    | none =>
      unfold renderCore at hcore
      rw [hres] at hcore
      simp at hcore
    | some impl =>
      cases htd : textDataOf M impl st with
      | nil =>
        unfold renderCore at hcore
        rw [hres] at hcore
        simp only [htd] at hcore
        simp at hcore
      | cons first rest =>
        have hfm : first ∈ textDataOf M impl st := by
          rw [htd]
          exact List.mem_cons_self first rest
        have hlm : (first :: rest).getLast (List.cons_ne_nil first rest) ∈
            textDataOf M impl st := by
          rw [htd]
          exact List.getLast_mem (List.cons_ne_nil first rest)
        have hsz : size0Of st ≤ st.sizeFor st.position.width := by
          unfold size0Of
          nlinarith
        cases hpos with
        | inl hh =>
          rw [renderCore_horiz impls M st impl first rest hh hres htd] at hcore
          simp only [Except.ok.injEq, Prod.mk.injEq] at hcore
          obtain ⟨hseq, hbeq⟩ := hcore
          constructor
          · intro q hq
            simp only [hh, horizontalPosition] at hq ⊢
            rw [← hbeq] at hq
            simp only [Bounds.get] at hq
            obtain ⟨c, dd, hc, hdd, hqe⟩ := jsub_some_inv _ _ _ hq
            obtain rfl : size0Of st = c := by simpa using hc
            obtain ⟨a2, b2, ha2, hb2, hde⟩ := jadd_some_inv _ _ _ hdd
            obtain ⟨a, hfa, ha⟩ := jhalf_some_inv _ _ ha2
            obtain ⟨b, hfb, hbv⟩ := jhalf_some_inv _ _ hb2
            have hna : 0 ≤ a := textDataOf_width_nonneg M impl st hM first hfm a hfa
            have hnb : 0 ≤ b :=
              textDataOf_width_nonneg M impl st hM _ hlm b hfb
            have : q ≤ size0Of st := by
              rw [hqe, hde, ha, hbv]
              linarith
            have h2 : q ≤ st.sizeFor st.position.width := le_trans this hsz
            rw [hh] at h2
            exact h2
          · intro q hq
            simp only [hh, horizontalPosition] at hq ⊢
            rw [← hbeq] at hq
            simp only [Bounds.get] at hq
            obtain ⟨c, dd, hc, hdd, hqe⟩ := jadd_some_inv _ _ _ hq
            obtain rfl : st.padding * 2 = dd := by simpa using hdd
            obtain ⟨t2, m, htt, hm, hce⟩ := jadd_some_inv _ _ _ hc
            obtain rfl : st.tickSize = t2 := by simpa using htt
            have hmn : 0 ≤ m := by
              refine d3Max_some_ge _ m 0 ?_ hm
              intro x hx aa hxa
              obtain ⟨t3, ht3, he3⟩ := List.mem_map.mp hx
              rw [← he3] at hxa
              obtain rfl : t3.height = aa := by simpa using hxa
              exact textDataOf_height_nonneg M impl st hlh t3 (htd ▸ ht3)
            rw [hqe, hce]
            nlinarith
        | inr hh =>
          rw [renderCore_vert impls M st impl first rest hh hres htd] at hcore
          simp only [Except.ok.injEq, Prod.mk.injEq] at hcore
          obtain ⟨hseq, hbeq⟩ := hcore
          constructor
          · intro q hq
            simp only [hh, verticalPosition] at hq ⊢
            rw [← hbeq] at hq
            simp only [Bounds.get] at hq
            obtain ⟨c, dd, hc, hdd, hqe⟩ := jsub_some_inv _ _ _ hq
            obtain rfl : size0Of st = c := by simpa using hc
            obtain ⟨a2, b2, ha2, hb2, hde⟩ := jadd_some_inv _ _ _ hdd
            obtain ⟨a, hfa, ha⟩ := jhalf_some_inv _ _ ha2
            obtain ⟨b, hfb, hbv⟩ := jhalf_some_inv _ _ hb2
            obtain rfl : first.height = a := by simpa using hfa
            have hna : 0 ≤ first.height :=
              textDataOf_height_nonneg M impl st hlh first hfm
            obtain rfl : ((first :: rest).getLast (List.cons_ne_nil first rest)).height
                = b := by simpa using hfb
            have hnb : 0 ≤ ((first :: rest).getLast (List.cons_ne_nil first rest)).height :=
              textDataOf_height_nonneg M impl st hlh _ hlm
            have : q ≤ size0Of st := by
              rw [hqe, hde, ha, hbv]
              linarith
            have h2 : q ≤ st.sizeFor st.position.width := le_trans this hsz
            rw [hh] at h2
            exact h2
          · intro q hq
            simp only [hh, verticalPosition] at hq ⊢
            rw [← hbeq] at hq
            simp only [Bounds.get] at hq
            obtain ⟨c, dd, hc, hdd, hqe⟩ := jadd_some_inv _ _ _ hq
            obtain rfl : st.padding * 2 = dd := by simpa using hdd
            obtain ⟨t2, m, htt, hm, hce⟩ := jadd_some_inv _ _ _ hc
            obtain rfl : st.tickSize = t2 := by simpa using htt
            have hmn : 0 ≤ m := by
              refine d3Max_some_ge _ m 0 ?_ hm
              intro x hx aa hxa
              obtain ⟨t3, ht3, he3⟩ := List.mem_map.mp hx
              rw [← he3] at hxa
              exact textDataOf_width_nonneg M impl st hM t3 (htd ▸ ht3) aa hxa
            rw [hqe, hce]
            nlinarith

theorem outer_bounds_amended_witness :
    (382 : ℚ) ≤ renderedDefault.sizeFor renderedDefault.position.width ∧
      (0 : ℚ) ≤ 27 := by
  have h := outer_bounds_amended sampleImpls (constMeasurer 8) {} renderedDefault
    (Or.inl rfl) (by norm_num) (by norm_num)
    (fun t f s => by norm_num [constMeasurer])
    (fun d i => by norm_num [lhOf])
    render_default_eq
  exact ⟨h.1 382 rfl, h.2 27 rfl⟩

/-- A configuration whose primary extent is eaten entirely by padding. -/
def zeroAvailSt : LegendState :=
  { width := 6, padding := 3, ticksCfg := some [0, 10] }

theorem spaceOf_zeroAvail : spaceOf linearImpl zeroAvailSt = some (-3) := by
  simp only [spaceOf, spaceLoop, valuesOf, zeroAvailSt, scale0Of, size0Of,
    LegendState.sizeFor, horizontalPosition, String.reduceEq, reduceIte]
  simp only [List.length_cons, List.length_nil, List.range_succ, List.range_zero,
    List.nil_append, List.foldl_cons, List.foldl_nil, List.getElem?_cons_succ,
    List.getElem?_cons_zero, List.getElem?_nil]
  simp only [ScaleInst.applyJ]
  norm_num [ScaleInst.apply, linearImpl, jadd, jsub, jmul, jgt]

theorem textDataOf_zeroAvail :
    textDataOf (constMeasurer 2) linearImpl zeroAvailSt =
      [⟨["x"], some 2, 12⟩, ⟨["x"], some 2, 12⟩] := by
  rw [textDataOf_constMeasurer 2 linearImpl zeroAvailSt [0, 10] rfl]
  simp only [List.enum, List.enumFrom, List.map]
  norm_num [lhOf, zeroAvailSt, WrapRes.mk.injEq]

/-- The finalized scale for the zero-available configuration. -/
def zeroAvailScale1 : ScaleInst := ⟨linearImpl.transform, 0, 10, some 4, some 2⟩

/-- The instance state after rendering the zero-available configuration
under the sample collaborators with label width 2. -/
def zeroAvailRendered : LegendState :=
  { zeroAvailSt with
    lineHeight := some (lhOf zeroAvailSt)
    d3Scale := some zeroAvailScale1
    outerBounds := ⟨some (-2), some 23, some 4, some (77 / 2)⟩
    lastScale := some zeroAvailScale1 }

theorem render_zeroAvail_eq :
    (render sampleImpls (constMeasurer 2) zeroAvailSt).res = .ok zeroAvailRendered := by
  have h := renderCore_horiz sampleImpls (constMeasurer 2) zeroAvailSt linearImpl
    ⟨["x"], some 2, 12⟩ [⟨["x"], some 2, 12⟩] rfl rfl textDataOf_zeroAvail
  simp only [render, h]
  simp only [List.getLast, List.map, d3Max, d3MaxStep, List.foldl, jadd, jsub, jhalf,
    size0Of, LegendState.sizeFor, horizontalPosition, String.reduceEq, reduceIte]
  norm_num [zeroAvailRendered, zeroAvailScale1, zeroAvailSt, linearImpl,
    LegendState.mk.injEq, ScaleInst.mk.injEq, Bounds.mk.injEq, lhOf,
    horizontalPosition, size0Of, LegendState.sizeFor, String.reduceEq, reduceIte]
  rfl

/-- C5 counterexample: with primary size 6 and padding 3 the available size
is exactly zero; the render completes, but the outer bounds primary size is
-2, not 0, and the wrap budget is the unclamped negative value -3 rather
than an unconstrained one. -/
theorem zero_width_counterexample :
    (outBoundsOf (render sampleImpls (constMeasurer 2) zeroAvailSt)).map
        (fun bb => bb.get "width") = some (some (-2)) ∧
      spaceOf linearImpl zeroAvailSt = some (-3) ∧
      ¬ some ((-2 : ℚ)) = some ((0 : ℚ)) := by
  refine ⟨?_, spaceOf_zeroAvail, by simp⟩
  rw [outBoundsOf_ok _ zeroAvailRendered render_zeroAvail_eq]
  simp [zeroAvailRendered, Bounds.get]

theorem jadd_isSome (x y : JQ) (hx : x.isSome = true) (hy : y.isSome = true) :
    (jadd x y).isSome = true := by
  obtain ⟨a, rfl⟩ := Option.isSome_iff_exists.mp hx
  obtain ⟨b, rfl⟩ := Option.isSome_iff_exists.mp hy
  rfl

theorem jsub_isSome (x y : JQ) (hx : x.isSome = true) (hy : y.isSome = true) :
    (jsub x y).isSome = true := by
  obtain ⟨a, rfl⟩ := Option.isSome_iff_exists.mp hx
  obtain ⟨b, rfl⟩ := Option.isSome_iff_exists.mp hy
  rfl

theorem jhalf_isSome (x : JQ) (hx : x.isSome = true) :
    (jhalf x).isSome = true := by
  obtain ⟨a, rfl⟩ := Option.isSome_iff_exists.mp hx
  rfl

/-- C5 amended: when the available primary size is zero or negative and at
least one tick is present, the render still completes without throwing;
provided the measurer always yields at least one line and non-negative
widths, every outer-bounds entry is a finite number (no NaN), and the
primary size equals the available size minus the edge label half-sizes, so
it is at most zero - but not zero in general. The wrap budget is passed
through unclamped (see the counterexample). -/
theorem degenerate_width_amended (impls : String → ScaleImpl) (M : TextMeasurer)
    (st : LegendState) (impl : ScaleImpl) (first : WrapRes) (rest : List WrapRes)
    (hpos : st.position = horizontalPosition ∨ st.position = verticalPosition)
    (hres : resolveScale impls st.scaleName = some impl)
    (htd : textDataOf M impl st = first :: rest)
    (hlines : ∀ f s2 lh w h2 d2, M.wrapLines f s2 lh w h2 d2 ≠ [])
    (hsize : size0Of st ≤ 0)
    (hM : ∀ t f s2, 0 ≤ M.textWidth t f s2)
    (hlh : ∀ d i, 0 ≤ lhOf st d i) :
    ∃ st1, (render impls M st).res = .ok st1 ∧
      (st1.outerBounds.get st1.position.width).isSome = true ∧
      (st1.outerBounds.get st1.position.height).isSome = true ∧
      (st1.outerBounds.get st1.position.x).isSome = true ∧
      (st1.outerBounds.get st1.position.y).isSome = true ∧
      (∀ q, st1.outerBounds.get st1.position.width = some q → q ≤ 0) := by
  have hfm : first ∈ textDataOf M impl st := by
    rw [htd]
    exact List.mem_cons_self first rest
  have hlm : (first :: rest).getLast (List.cons_ne_nil first rest) ∈
      textDataOf M impl st := by
    rw [htd]
    exact List.getLast_mem (List.cons_ne_nil first rest)
  obtain ⟨df, if2, hfirst⟩ := textDataOf_mem M impl st first hfm
  obtain ⟨dl, il, hlast⟩ := textDataOf_mem M impl st _ hlm
  have hfw : first.width.isSome = true := by
    rw [hfirst]
    exact measureText_width_isSome M impl st df if2 hlines
  have hlw : ((first :: rest).getLast (List.cons_ne_nil first rest)).width.isSome
      = true := by
    rw [hlast]
    exact measureText_width_isSome M impl st dl il hlines
  obtain ⟨fa, hfa⟩ := Option.isSome_iff_exists.mp hfw
  obtain ⟨la, hla⟩ := Option.isSome_iff_exists.mp hlw
  have hfa0 : 0 ≤ fa := textDataOf_width_nonneg M impl st hM first hfm fa hfa
  have hla0 : 0 ≤ la := textDataOf_width_nonneg M impl st hM _ hlm la hla
  have hfh0 : 0 ≤ first.height := textDataOf_height_nonneg M impl st hlh first hfm
  have hlh0 : 0 ≤ ((first :: rest).getLast (List.cons_ne_nil first rest)).height :=
    textDataOf_height_nonneg M impl st hlh _ hlm
  cases hpos with
  | inl hh =>
    have hcore := renderCore_horiz impls M st impl first rest hh hres htd
    have hmax : (d3Max ((first :: rest).map (fun t => some t.height))).isSome = true := by
      apply d3Max_isSome
      · simp
      · intro x hx
        obtain ⟨t3, ht3, he3⟩ := List.mem_map.mp hx
        simp [← he3]
    obtain ⟨m, hm⟩ := Option.isSome_iff_exists.mp hmax
    unfold render
    rw [hcore]
    refine ⟨_, rfl, ?_, ?_, ?_, ?_, ?_⟩ <;>
      simp only [hh, horizontalPosition, Bounds.get, hfa, hla, hm]
    · simp
    · simp
    · simp
    · split_ifs <;> simp
    · intro q hq
      simp only [jhalf_some, jadd_some, jsub_some, Option.some.injEq] at hq
      rw [← hq]
      linarith
  | inr hh =>
    have hcore := renderCore_vert impls M st impl first rest hh hres htd
    have hmax : (d3Max ((first :: rest).map (fun t => t.width))).isSome = true := by
      apply d3Max_isSome
      · simp
      · intro x hx
        obtain ⟨t3, ht3, he3⟩ := List.mem_map.mp hx
        obtain ⟨d4, i4, he4⟩ := textDataOf_mem M impl st t3 (htd ▸ ht3)
        rw [← he3, he4]
        exact measureText_width_isSome M impl st d4 i4 hlines
    obtain ⟨m, hm⟩ := Option.isSome_iff_exists.mp hmax
    unfold render
    rw [hcore]
    refine ⟨_, rfl, ?_, ?_, ?_, ?_, ?_⟩ <;>
      simp only [hh, verticalPosition, Bounds.get, hm]
    · simp
    · simp
    · simp
    · split_ifs <;> simp
    · intro q hq
      simp only [jhalf_some, jadd_some, jsub_some, Option.some.injEq] at hq
      rw [← hq]
      linarith

theorem degenerate_width_amended_witness :
    renderOk (render sampleImpls (constMeasurer 2) zeroAvailSt) = true ∧
      ((-2 : ℚ) ≤ 0) := by
  obtain ⟨st1, h1, hw, hhh, hx, hy, hq⟩ := degenerate_width_amended sampleImpls
    (constMeasurer 2) zeroAvailSt linearImpl ⟨["x"], some 2, 12⟩ [⟨["x"], some 2, 12⟩]
    (Or.inl rfl) rfl textDataOf_zeroAvail
    (fun f s2 lh w h2 d2 => by simp [constMeasurer])
    (by norm_num [size0Of, LegendState.sizeFor, zeroAvailSt, horizontalPosition])
    (fun t f s2 => by norm_num [constMeasurer])
    (fun d i => by norm_num [lhOf, zeroAvailSt])
  have hst : st1 = zeroAvailRendered := by
    have := render_zeroAvail_eq
    rw [h1] at this
    exact (Except.ok.inj this)
  subst hst
  refine ⟨by simp [renderOk, h1], ?_⟩
  exact hq (-2) rfl

end ScaleLegend
